import Mathlib

/-!
Verification of the Shenandoah uncommit controller
(`src/hotspot/share/gc/shenandoah/shenandoahUncommitThread.cpp`).

The embedding models the heap as a finite list of regions plus scalar
accessors (`committed`, `soft_max_capacity`, `min_capacity`), timestamps as
rationals (the C++ code uses `double` only for comparisons and a fixed
division by constants, which the rationals reflect exactly), and byte counts
as naturals (`size_t`).  The uncommit pass is instrumented with a ghost trace
listing the indices of the regions it uncommitted, in order; the source keeps
only the length of that trace as its `count` local.
-/

/-- A heap region, as consumed by the uncommit thread: the
`is_empty_committed` predicate and the `empty_time` timestamp (seconds).
The region class itself is outside the uncommit thread's translation unit;
these two fields are exactly the observations the thread makes of a region. -/
structure ShenandoahHeapRegion where
  emptyCommitted : Bool
  emptyTime : ℚ
deriving Repr, DecidableEq

/-- `ShenandoahHeapRegion::is_empty_committed()`. -/
def ShenandoahHeapRegion.is_empty_committed (r : ShenandoahHeapRegion) : Bool :=
  r.emptyCommitted

/-- `ShenandoahHeapRegion::empty_time()`. -/
def ShenandoahHeapRegion.empty_time (r : ShenandoahHeapRegion) : ℚ :=
  r.emptyTime

/-- The heap state the uncommit thread reads and writes: the region sequence
and the `committed` / `soft_max_capacity` / `min_capacity` byte counters. -/
structure ShenandoahHeap where
  regions : List ShenandoahHeapRegion
  committed : Nat
  soft_max_capacity : Nat
  min_capacity : Nat
deriving Repr, DecidableEq

/-- `ShenandoahHeap::num_regions()`. -/
def ShenandoahHeap.num_regions (h : ShenandoahHeap) : Nat :=
  h.regions.length

/-- `ShenandoahHeap::get_region(i)`.  The source only calls this with
`i < num_regions()`; out-of-range reads return an inert default region. -/
def ShenandoahHeap.get_region (h : ShenandoahHeap) (i : Nat) : ShenandoahHeapRegion :=
  h.regions.getD i { emptyCommitted := false, emptyTime := 0 }

/-- Replace region `i` (no-op when `i` is out of range, matching `List.set`). -/
def ShenandoahHeap.set_region (h : ShenandoahHeap) (i : Nat) (r : ShenandoahHeapRegion) :
    ShenandoahHeap :=
  { h with regions := h.regions.set i r }

/-- Modelled from the spec: `ShenandoahHeapRegion::make_uncommitted()` is not
under `src/` (only its caller is).  Per the spec it "releases the region's
backing memory and clears `is_empty_committed`", and `committed` is "the total
bytes currently committed", so the transition clears the flag and lowers the
heap's committed counter by `region_size_bytes`. -/
def make_uncommitted (region_size_bytes : Nat) (h : ShenandoahHeap) (i : Nat) :
    ShenandoahHeap :=
  let h1 := h.set_region i { h.get_region i with emptyCommitted := false }
  { h1 with committed := h.committed - region_size_bytes }

/-- Modelled from the spec: `ShenandoahSharedFlag` is not under `src/`.  Per
the spec it is a single-bit edge flag with atomic `try_set` / `try_unset`. -/
structure ShenandoahSharedFlag where
  value : Bool
deriving Repr, DecidableEq

/-- Modelled from the spec: `try_set` sets the flag if it is currently clear
and reports whether this call won the transition. -/
def ShenandoahSharedFlag.try_set (f : ShenandoahSharedFlag) :
    ShenandoahSharedFlag × Bool :=
  if f.value then (f, false) else ({ value := true }, true)

/-- Modelled from the spec: `try_unset` clears the flag if it is currently set
and reports whether this call observed the set state. -/
def ShenandoahSharedFlag.try_unset (f : ShenandoahSharedFlag) :
    ShenandoahSharedFlag × Bool :=
  if f.value then ({ value := false }, true) else (f, false)

/-- Scan step of `ShenandoahUncommitThread::has_work` (lines 80-85): walk the
regions in index order, returning `true` on the first region that is
empty-committed and became empty before `shrink_before`. -/
def has_work_scan (shrink_before : ℚ) : List ShenandoahHeapRegion → Bool
  | [] => false
  | r :: rs =>
    if r.is_empty_committed ∧ r.empty_time < shrink_before then true
    else has_work_scan shrink_before rs

/-- `ShenandoahUncommitThread::has_work` (lines 71-88): report no work when
`committed <= shrink_until`, otherwise scan for an eligible region. -/
def has_work (h : ShenandoahHeap) (shrink_before : ℚ) (shrink_until : Nat) : Bool :=
  if h.committed ≤ shrink_until then false
  else has_work_scan shrink_before h.regions

/-- The loop of `ShenandoahUncommitThread::uncommit` (lines 115-130).  The
fuel argument is the source's loop counter `i`; each step handles region
`i - 1`.  `interf` models whatever a mutator does to the candidate region
between the unlocked eligibility check and the heap-lock acquisition (the
double-checked pattern); the sequential pass uses the identity.  The returned
list is a ghost trace of the uncommitted region indices in order; the source
keeps only its length (`count`). -/
def uncommit_loop (region_size_bytes : Nat) (shrink_before : ℚ) (shrink_until : Nat)
    (interf : Nat → ShenandoahHeapRegion → ShenandoahHeapRegion) :
    ShenandoahHeap → List Nat → Nat → ShenandoahHeap × List Nat
  | h, tr, 0 => (h, tr)
  | h, tr, i + 1 =>
    let r := h.get_region i
    if r.is_empty_committed ∧ r.empty_time < shrink_before then
      -- the heap lock is acquired here; the region may have changed meanwhile
      let h1 := h.set_region i (interf i r)
      if (h1.get_region i).is_empty_committed then
        if h1.committed < shrink_until + region_size_bytes then (h1, tr)
        else
          uncommit_loop region_size_bytes shrink_before shrink_until interf
            (make_uncommitted region_size_bytes h1 i) (tr ++ [i]) i
      else uncommit_loop region_size_bytes shrink_before shrink_until interf h1 tr i
    else uncommit_loop region_size_bytes shrink_before shrink_until interf h tr i

/-- `ShenandoahUncommitThread::uncommit` (lines 104-136), sequential pass:
iterate from `num_regions` down to `1`, acting on region `i - 1`, with no
mutator interference. -/
def uncommit (region_size_bytes : Nat) (shrink_before : ℚ) (shrink_until : Nat)
    (h : ShenandoahHeap) : ShenandoahHeap × List Nat :=
  uncommit_loop region_size_bytes shrink_before shrink_until (fun _ r => r)
    h [] h.num_regions

/-- Line 47: `shrink_period = (double)ShenandoahUncommitDelay / 1000 / 10`,
with the delay in milliseconds and the period in seconds. -/
def shrink_period (delay : ℚ) : ℚ :=
  delay / 1000 / 10

/-- Line 67: the value passed to the monitor wait is `(int64_t)shrink_period`.
The C cast truncates toward zero, which is `Int.floor` for the non-negative
periods arising from a millisecond configuration value and `Int.ceil` below
zero. -/
def monitor_wait_timeout (delay : ℚ) : Int :=
  if 0 ≤ shrink_period delay then ⌊shrink_period delay⌋ else ⌈shrink_period delay⌉

/-- The controller-owned state of `ShenandoahUncommitThread`: the two edge
flags and `last_shrink_time` (seconds). -/
structure ShenandoahUncommitThreadState where
  soft_max_changed : ShenandoahSharedFlag
  explicit_gc_requested : ShenandoahSharedFlag
  last_shrink_time : ℚ
deriving Repr, DecidableEq

/-- One iteration of the `run_service` loop body (lines 50-64): consume both
edge flags, decide whether to act, compute `shrink_before` / `shrink_until`,
and run the detector and the pass.  Returns the heap, the controller state,
and the ghost trace of uncommitted region indices (empty when no pass ran). -/
def run_iteration (region_size_bytes : Nat) (delay : ℚ) (current : ℚ)
    (st : ShenandoahUncommitThreadState) (h : ShenandoahHeap) :
    ShenandoahHeap × ShenandoahUncommitThreadState × List Nat :=
  let u1 := st.soft_max_changed.try_unset
  let soft_max_changed := u1.2
  let u2 := st.explicit_gc_requested.try_unset
  let explicit_gc_requested := u2.2
  let st1 : ShenandoahUncommitThreadState :=
    { st with soft_max_changed := u1.1, explicit_gc_requested := u2.1 }
  if soft_max_changed || explicit_gc_requested
      || decide (current - st.last_shrink_time > shrink_period delay) then
    let shrink_before : ℚ :=
      if soft_max_changed || explicit_gc_requested then current
      else current - delay / 1000
    let shrink_until : Nat :=
      if soft_max_changed then h.soft_max_capacity else h.min_capacity
    if has_work h shrink_before shrink_until then
      let p := uncommit region_size_bytes shrink_before shrink_until h
      (p.1, { st1 with last_shrink_time := current }, p.2)
    else (h, st1, [])
  else (h, st1, [])

/-- `ShenandoahUncommitThread::notify_soft_max_changed` (lines 90-95): the
returned boolean records whether the monitor was taken and `notify_all`
invoked, which happens exactly when `try_set` won the transition. -/
def notify_soft_max_changed (f : ShenandoahSharedFlag) :
    ShenandoahSharedFlag × Bool :=
  let s := f.try_set
  if s.2 then (s.1, true) else (s.1, false)

/-- `ShenandoahUncommitThread::notify_explicit_gc_requested` (lines 97-102). -/
def notify_explicit_gc_requested (f : ShenandoahSharedFlag) :
    ShenandoahSharedFlag × Bool :=
  let s := f.try_set
  if s.2 then (s.1, true) else (s.1, false)

/-- `n` back-to-back invocations of a notification entry point, counting how
many of them took the monitor and called `notify_all`. -/
def iterate_notify (notify : ShenandoahSharedFlag → ShenandoahSharedFlag × Bool) :
    Nat → ShenandoahSharedFlag → ShenandoahSharedFlag × Nat
  | 0, f => (f, 0)
  | n + 1, f =>
    let p := notify f
    let q := iterate_notify notify n p.1
    (q.1, (if p.2 then 1 else 0) + q.2)

/-- The spec's wording of the `shrink_before` parameter: "`now` when either
edge flag was observed; otherwise `now - uncommit_delay_seconds`" — for
comparison against `run_iteration`. -/
def spec_shrink_before (delay now : ℚ) (soft_max explicit_gc : Bool) : ℚ :=
  if soft_max || explicit_gc then now else now - delay / 1000

/-- The spec's wording of the `shrink_until` parameter: "`soft_max_capacity`
if `soft_max` was observed (possibly combined with explicit_gc, in which case
soft_max wins); otherwise `min_capacity`" — for comparison against
`run_iteration`.  The `explicit_gc` argument is deliberately unused. -/
def spec_shrink_until (h : ShenandoahHeap) (soft_max explicit_gc : Bool) : Nat :=
  if soft_max then h.soft_max_capacity else h.min_capacity

/-! ### Concrete states used by witnesses and scenario theorems -/

/-- The spec's scenario S4, read with a region size of one unit: five empty
committed regions that are all old enough, `committed = 11`,
`min_capacity = 10`. -/
def heapS4 : ShenandoahHeap :=
  { regions := List.replicate 5 { emptyCommitted := true, emptyTime := 0 },
    committed := 11, soft_max_capacity := 100, min_capacity := 10 }

/-! ### Helper lemmas about lists, regions and the heap accessors -/

theorem set_getD_eq_self (l : List α) (i : Nat) (d : α) :
    l.set i (l.getD i d) = l := by
  induction l generalizing i with
  | nil => rfl
  | cons a t ih =>
    cases i with
    | zero => rfl
    | succ j =>
      show a :: t.set j (t.getD j d) = a :: t
      rw [ih]

theorem getD_set_ne (l : List α) {i j : Nat} (x d : α) (hij : i ≠ j) :
    (l.set i x).getD j d = l.getD j d := by
  induction l generalizing i j with
  | nil => rfl
  | cons a t ih =>
    cases i with
    | zero =>
      cases j with
      | zero => exact absurd rfl hij
      | succ j0 => rfl
    | succ i0 =>
      cases j with
      | zero => rfl
      | succ j0 =>
        show (t.set i0 x).getD j0 d = t.getD j0 d
        exact ih fun hc => hij (by rw [hc])

theorem getD_set_self (l : List α) {i : Nat} (x d : α) (hi : i < l.length) :
    (l.set i x).getD i d = x := by
  induction l generalizing i with
  | nil => exact absurd hi (by simp)
  | cons a t ih =>
    cases i with
    | zero => rfl
    | succ i0 =>
      show (t.set i0 x).getD i0 d = x
      exact ih (Nat.lt_of_succ_lt_succ hi)

theorem getD_of_length_le (l : List α) {i : Nat} (d : α) (hi : l.length ≤ i) :
    l.getD i d = d := by
  induction l generalizing i with
  | nil => rfl
  | cons a t ih =>
    cases i with
    | zero => exact absurd hi (by simp)
    | succ i0 =>
      show t.getD i0 d = d
      exact ih (Nat.le_of_succ_le_succ hi)

theorem set_region_get_region (h : ShenandoahHeap) (i : Nat) :
    h.set_region i (h.get_region i) = h := by
  cases h with
  | mk rs c s m =>
    simp only [ShenandoahHeap.set_region, ShenandoahHeap.get_region]
    rw [set_getD_eq_self]

theorem get_region_set_region_ne (h : ShenandoahHeap) {i j : Nat}
    (r : ShenandoahHeapRegion) (hij : i ≠ j) :
    (h.set_region i r).get_region j = h.get_region j := by
  simp only [ShenandoahHeap.set_region, ShenandoahHeap.get_region]
  exact getD_set_ne _ _ _ hij

theorem get_region_set_region_self (h : ShenandoahHeap) {i : Nat}
    (r : ShenandoahHeapRegion) (hi : i < h.num_regions) :
    (h.set_region i r).get_region i = r := by
  simp only [ShenandoahHeap.set_region, ShenandoahHeap.get_region]
  exact getD_set_self _ _ _ hi

theorem committed_set_region (h : ShenandoahHeap) (i : Nat) (r : ShenandoahHeapRegion) :
    (h.set_region i r).committed = h.committed := rfl

theorem committed_make_uncommitted (rsb : Nat) (h : ShenandoahHeap) (i : Nat) :
    (make_uncommitted rsb h i).committed = h.committed - rsb := rfl

theorem get_region_make_uncommitted_ne (rsb : Nat) (h : ShenandoahHeap) {i j : Nat}
    (hij : i ≠ j) :
    (make_uncommitted rsb h i).get_region j = h.get_region j := by
  simp only [make_uncommitted, ShenandoahHeap.get_region, ShenandoahHeap.set_region]
  exact getD_set_ne _ _ _ hij

theorem index_lt_of_empty_committed (h : ShenandoahHeap) (i : Nat)
    (he : (h.get_region i).is_empty_committed = true) : i < h.num_regions := by
  by_contra hn
  rw [ShenandoahHeap.get_region,
    getD_of_length_le _ _ (Nat.le_of_not_lt hn)] at he
  exact Bool.false_ne_true he

theorem try_unset_eq (f : ShenandoahSharedFlag) :
    f.try_unset = ({ value := false }, f.value) := by
  cases f with
  | mk v => cases v <;> rfl

/-! ### Unfolding lemmas for the uncommit loop -/

theorem uncommit_loop_zero (rsb : Nat) (sb : ℚ) (su : Nat)
    (interf : Nat → ShenandoahHeapRegion → ShenandoahHeapRegion)
    (h : ShenandoahHeap) (tr : List Nat) :
    uncommit_loop rsb sb su interf h tr 0 = (h, tr) := rfl

theorem uncommit_loop_succ (rsb : Nat) (sb : ℚ) (su : Nat)
    (interf : Nat → ShenandoahHeapRegion → ShenandoahHeapRegion)
    (h : ShenandoahHeap) (tr : List Nat) (i : Nat) :
    uncommit_loop rsb sb su interf h tr (i + 1) =
      if (h.get_region i).is_empty_committed ∧ (h.get_region i).empty_time < sb then
        if ((h.set_region i (interf i (h.get_region i))).get_region i).is_empty_committed then
          if (h.set_region i (interf i (h.get_region i))).committed < su + rsb then
            (h.set_region i (interf i (h.get_region i)), tr)
          else
            uncommit_loop rsb sb su interf
              (make_uncommitted rsb (h.set_region i (interf i (h.get_region i))) i)
              (tr ++ [i]) i
        else uncommit_loop rsb sb su interf (h.set_region i (interf i (h.get_region i))) tr i
      else uncommit_loop rsb sb su interf h tr i := rfl

/-! ### Loop invariants of the uncommit pass -/

theorem uncommit_loop_committed_ge (rsb : Nat) (sb : ℚ) (su : Nat)
    (interf : Nat → ShenandoahHeapRegion → ShenandoahHeapRegion) :
    ∀ (n : Nat) (h : ShenandoahHeap) (tr : List Nat), su ≤ h.committed →
      su ≤ (uncommit_loop rsb sb su interf h tr n).1.committed := by
  intro n
  induction n with
  | zero => intro h tr hc; exact hc
  | succ i ih =>
    intro h tr hc
    rw [uncommit_loop_succ]
    split_ifs with h1 h2 h3
    · exact hc
    · apply ih
      rw [committed_make_uncommitted, committed_set_region]
      rw [committed_set_region] at h3
      omega
    · exact ih _ _ hc
    · exact ih _ _ hc


theorem uncommit_loop_preserves_region (rsb : Nat) (sb : ℚ) (su : Nat)
    (interf : Nat → ShenandoahHeapRegion → ShenandoahHeapRegion) (j : Nat) :
    ∀ (n : Nat) (h : ShenandoahHeap) (tr : List Nat),
      ¬((h.get_region j).empty_time < sb) →
      (uncommit_loop rsb sb su interf h tr n).1.get_region j = h.get_region j := by
  intro n
  induction n with
  | zero => intro h tr _; rfl
  | succ i ih =>
    intro h tr hj
    rw [uncommit_loop_succ]
    split_ifs with h1 h2 h3
    · exact get_region_set_region_ne h _ (fun hij => hj (hij ▸ h1.2))
    · have hij : i ≠ j := fun hij => hj (hij ▸ h1.2)
      have hset : (h.set_region i (interf i (h.get_region i))).get_region j
          = h.get_region j := get_region_set_region_ne h _ hij
      rw [ih _ _ (by rw [get_region_make_uncommitted_ne rsb _ hij, hset]; exact hj),
        get_region_make_uncommitted_ne rsb _ hij, hset]
    · have hij : i ≠ j := fun hij => hj (hij ▸ h1.2)
      rw [ih _ _ (by rw [get_region_set_region_ne h _ hij]; exact hj),
        get_region_set_region_ne h _ hij]
    · exact ih h tr hj

theorem uncommit_loop_trace_mem (rsb : Nat) (sb : ℚ) (su : Nat)
    (interf : Nat → ShenandoahHeapRegion → ShenandoahHeapRegion) (x : Nat) :
    ∀ (n : Nat) (h : ShenandoahHeap) (tr : List Nat), x ∈ tr →
      x ∈ (uncommit_loop rsb sb su interf h tr n).2 := by
  intro n
  induction n with
  | zero => intro h tr hx; exact hx
  | succ i ih =>
    intro h tr hx
    rw [uncommit_loop_succ]
    split_ifs with h1 h2 h3
    · exact hx
    · exact ih _ _ (List.mem_append_left _ hx)
    · exact ih _ _ hx
    · exact ih _ _ hx

theorem uncommit_loop_trace_pairwise (rsb : Nat) (sb : ℚ) (su : Nat)
    (interf : Nat → ShenandoahHeapRegion → ShenandoahHeapRegion) :
    ∀ (n : Nat) (h : ShenandoahHeap) (tr : List Nat),
      (∀ x ∈ tr, n ≤ x) → List.Pairwise (fun a b => b < a) tr →
      List.Pairwise (fun a b => b < a) (uncommit_loop rsb sb su interf h tr n).2 := by
  intro n
  induction n with
  | zero => intro h tr _ hp; exact hp
  | succ i ih =>
    intro h tr hb hp
    rw [uncommit_loop_succ]
    split_ifs with h1 h2 h3
    · exact hp
    · apply ih
      · intro x hx
        rcases List.mem_append.mp hx with hx | hx
        · exact Nat.le_of_succ_le (hb x hx)
        · simp only [List.mem_singleton] at hx
          omega
      · rw [List.pairwise_append]
        refine ⟨hp, List.pairwise_singleton _ _, ?_⟩
        intro a ha b hbmem
        simp only [List.mem_singleton] at hbmem
        have := hb a ha
        omega
    · exact ih _ _ (fun x hx => Nat.le_of_succ_le (hb x hx)) hp
    · exact ih _ _ (fun x hx => Nat.le_of_succ_le (hb x hx)) hp

theorem has_work_scan_iff (sb : ℚ) (l : List ShenandoahHeapRegion) :
    has_work_scan sb l = true ↔
      ∃ r ∈ l, r.is_empty_committed = true ∧ r.empty_time < sb := by
  induction l with
  | nil => simp [has_work_scan]
  | cons a t ih =>
    by_cases hc : a.is_empty_committed = true ∧ a.empty_time < sb
    · simp [has_work_scan, hc]
    · rw [has_work_scan, if_neg hc, ih]
      constructor
      · rintro ⟨r, hr, hp⟩
        exact ⟨r, List.mem_cons_of_mem a hr, hp⟩
      · rintro ⟨r, hr, hp⟩
        rcases List.mem_cons.mp hr with rfl | hr
        · exact absurd hp hc
        · exact ⟨r, hr, hp⟩

/-! ### Claim theorems -/

/-- Claim C1: after an uncommit pass invoked with `(shrink_before,
shrink_until)` completes — the controller only invokes it when `has_work`
holds, which requires `committed > shrink_until` — the heap's committed bytes
are still at least `shrink_until`, because a region is only uncommitted when
`committed ≥ shrink_until + region_size_bytes` held immediately before.
Instantiating `shrink_until` at `min_capacity` (periodic / explicit-GC pass)
or `soft_max_capacity` (soft-max pass) gives the spec's lower bounds. -/
theorem uncommit_respects_lower_bound (rsb : Nat) (sb : ℚ) (su : Nat)
    (h : ShenandoahHeap) (hc : su ≤ h.committed) :
    su ≤ (uncommit rsb sb su h).1.committed :=
  uncommit_loop_committed_ge rsb sb su (fun _ r => r) h.num_regions h [] hc

theorem uncommit_respects_lower_bound_witness :
    10 ≤ heapS4.committed ∧ 10 ≤ (uncommit 1 100 10 heapS4).1.committed :=
  ⟨by decide, uncommit_respects_lower_bound 1 100 10 heapS4 (by decide)⟩

/-- Claim C3: `has_work` returns `false` whenever `committed ≤ shrink_until`,
and otherwise returns `true` exactly when some region is empty-committed with
an `empty_time` before `shrink_before`. -/
theorem has_work_charact (h : ShenandoahHeap) (sb : ℚ) (su : Nat) :
    (h.committed ≤ su → has_work h sb su = false) ∧
    (su < h.committed →
      (has_work h sb su = true ↔
        ∃ r ∈ h.regions, r.is_empty_committed = true ∧ r.empty_time < sb)) := by
  constructor
  · intro hle
    rw [has_work, if_pos hle]
  · intro hlt
    rw [has_work, if_neg (by omega)]
    exact has_work_scan_iff sb h.regions

theorem has_work_charact_witness :
    (has_work heapS4 100 20 = false) ∧
    (has_work heapS4 100 10 = true ↔
      ∃ r ∈ heapS4.regions, r.is_empty_committed = true ∧ r.empty_time < 100) :=
  ⟨(has_work_charact heapS4 100 20).1 (by decide),
    (has_work_charact heapS4 100 10).2 (by decide)⟩

/-- Claim C5: the uncommit pass visits region indices from highest to lowest,
so the ghost trace of uncommitted indices is strictly decreasing: whenever
`i > j` are both uncommitted in one pass, `i` is uncommitted no later
(earlier in the trace) than `j`. -/
theorem uncommit_trace_strictly_decreasing (rsb : Nat) (sb : ℚ) (su : Nat)
    (h : ShenandoahHeap) :
    List.Pairwise (fun a b => b < a) (uncommit rsb sb su h).2 :=
  uncommit_loop_trace_pairwise rsb sb su (fun _ r => r) h.num_regions h []
    (fun x hx => absurd hx (List.not_mem_nil x)) List.Pairwise.nil

/-- Claim C6: when a candidate region passes the locked re-check and the
budget guard `committed < shrink_until + region_size_bytes` holds, the pass
breaks out of the whole loop: the state is returned unchanged and no region
with a lower index is examined or uncommitted. -/
theorem budget_guard_breaks_loop (rsb : Nat) (sb : ℚ) (su : Nat)
    (h : ShenandoahHeap) (tr : List Nat) (i : Nat)
    (he : (h.get_region i).is_empty_committed = true)
    (ht : (h.get_region i).empty_time < sb)
    (hg : h.committed < su + rsb) :
    uncommit_loop rsb sb su (fun _ r => r) h tr (i + 1) = (h, tr) := by
  rw [uncommit_loop_succ, set_region_get_region, if_pos ⟨he, ht⟩, if_pos he,
    if_pos hg]

theorem budget_guard_breaks_loop_witness :
    (heapS4.get_region 4).is_empty_committed = true ∧
    (heapS4.get_region 4).empty_time < 100 ∧
    heapS4.committed < 10 + 2 ∧
    uncommit_loop 2 100 10 (fun _ r => r) heapS4 [] 5 = (heapS4, []) :=
  ⟨by decide, by decide, by decide,
    budget_guard_breaks_loop 2 100 10 heapS4 [] 4 (by decide) (by decide)
      (by decide)⟩

/-- Claim C7 counterexample: in the spec's scenario S4 read with a region
size of one unit (`min_capacity = 10`, `committed = 11`, five eligible empty
regions), a periodic pass does NOT uncommit zero regions — the guard
`committed < shrink_until + region_size_bytes` is `11 < 11`, which is false,
so the first candidate (region 4) is uncommitted. -/
theorem s4_pass_uncommits_nonzero :
    ¬((uncommit 1 100 heapS4.min_capacity heapS4).2.length = 0) := by
  decide

/-- Claim C7 (amended): in scenario S4 with a region size of one unit, a
periodic pass uncommits exactly one region — committed drops to exactly
`min_capacity`, which the strict guard permits — and the guard trips on the
second candidate; zero regions are uncommitted only when one region is at
least two units (e.g. `region_size_bytes = 2`). -/
theorem s4_budget_guard_amended :
    (uncommit 1 100 heapS4.min_capacity heapS4).2 = [4] ∧
    (uncommit 1 100 heapS4.min_capacity heapS4).1.committed = heapS4.min_capacity ∧
    (uncommit 2 100 heapS4.min_capacity heapS4).2 = [] := by
  decide

theorem notify_explicit_eq_notify_soft_max :
    notify_explicit_gc_requested = notify_soft_max_changed := rfl

theorem notify_soft_max_changed_set :
    notify_soft_max_changed { value := true } = ({ value := true }, false) := rfl

theorem notify_soft_max_changed_clear :
    notify_soft_max_changed { value := false } = ({ value := true }, true) := rfl

theorem iterate_notify_on_set (n : Nat) :
    iterate_notify notify_soft_max_changed n { value := true }
      = ({ value := true }, 0) := by
  induction n with
  | zero => rfl
  | succ m ih =>
    show (let p := notify_soft_max_changed { value := true };
      let q := iterate_notify notify_soft_max_changed m p.1;
      (q.1, (if p.2 then 1 else 0) + q.2)) = ({ value := true }, 0)
    rw [notify_soft_max_changed_set]
    simpa using ih

theorem iterate_notify_on_clear (n : Nat) (hn : 1 ≤ n) :
    iterate_notify notify_soft_max_changed n { value := false }
      = ({ value := true }, 1) := by
  cases n with
  | zero => omega
  | succ m =>
    show (let p := notify_soft_max_changed { value := false };
      let q := iterate_notify notify_soft_max_changed m p.1;
      (q.1, (if p.2 then 1 else 0) + q.2)) = ({ value := true }, 1)
    rw [notify_soft_max_changed_clear]
    simp [iterate_notify_on_set m]

/-- Claim C8: each notification entry point takes the monitor and calls
`notify_all` exactly when its `try_set` transitioned the edge flag from clear
to set, so `n ≥ 1` back-to-back notifications of one kind issued after the
loop's `try_unset` (which leaves the flag clear) call `notify_all` exactly
once, and the next `try_unset` observes the flag set exactly once. -/
theorem notify_coalescing (f : ShenandoahSharedFlag) (n : Nat) (hn : 1 ≤ n) :
    (notify_soft_max_changed f).2 = f.try_set.2 ∧
    (notify_explicit_gc_requested f).2 = f.try_set.2 ∧
    f.try_set.2 = !f.value ∧
    iterate_notify notify_soft_max_changed n f.try_unset.1
      = ({ value := true }, 1) ∧
    iterate_notify notify_explicit_gc_requested n f.try_unset.1
      = ({ value := true }, 1) ∧
    (iterate_notify notify_soft_max_changed n f.try_unset.1).1.try_unset.2
      = true := by
  have hcommon : iterate_notify notify_soft_max_changed n f.try_unset.1
      = ({ value := true }, 1) := by
    rw [try_unset_eq]
    exact iterate_notify_on_clear n hn
  refine ⟨?_, ?_, ?_, hcommon, ?_, ?_⟩
  · cases f with
    | mk v => cases v <;> rfl
  · cases f with
    | mk v => cases v <;> rfl
  · cases f with
    | mk v => cases v <;> rfl
  · rw [notify_explicit_eq_notify_soft_max]
    exact hcommon
  · rw [hcommon]
    rfl

theorem notify_coalescing_witness :
    1 ≤ 3 ∧
    (notify_soft_max_changed { value := true }).2
        = (ShenandoahSharedFlag.try_set { value := true }).2 ∧
    (notify_explicit_gc_requested { value := true }).2
        = (ShenandoahSharedFlag.try_set { value := true }).2 ∧
    (ShenandoahSharedFlag.try_set { value := true }).2 = !true ∧
    iterate_notify notify_soft_max_changed 3
        (ShenandoahSharedFlag.try_unset { value := true }).1
      = ({ value := true }, 1) ∧
    iterate_notify notify_explicit_gc_requested 3
        (ShenandoahSharedFlag.try_unset { value := true }).1
      = ({ value := true }, 1) ∧
    ((iterate_notify notify_soft_max_changed 3
        (ShenandoahSharedFlag.try_unset { value := true }).1).1.try_unset.2
      = true) :=
  ⟨by decide, notify_coalescing { value := true } 3 (by decide)⟩

/-- Claim C9: the controller parks at the end of every iteration for at most
`shrink_period`, where `shrink_period` in seconds is
`ShenandoahUncommitDelay / 1000 / 10`; the value passed to the monitor wait
is the integer truncation of `shrink_period`, which (taking the wait's time
unit from the spec's "park for up to `shrink_period`") never exceeds
`shrink_period`, so an unnotified parked controller resumes within
`shrink_period`. -/
theorem shrink_period_wait_bound (delay : ℚ) (hd : 0 ≤ delay) :
    shrink_period delay = delay / 1000 / 10 ∧
    (monitor_wait_timeout delay : ℚ) ≤ shrink_period delay := by
  refine ⟨rfl, ?_⟩
  have hp : 0 ≤ shrink_period delay :=
    div_nonneg (div_nonneg hd (by norm_num)) (by norm_num)
  rw [monitor_wait_timeout, if_pos hp]
  exact Int.floor_le _

theorem shrink_period_wait_bound_witness :
    0 ≤ (300000 : ℚ) ∧
    (shrink_period 300000 = 300000 / 1000 / 10 ∧
      (monitor_wait_timeout 300000 : ℚ) ≤ shrink_period 300000) :=
  ⟨by norm_num, shrink_period_wait_bound 300000 (by norm_num)⟩

/-- Heap for the age-respect witness: region 0 was emptied just now (at
t = 10), region 1 long ago (at t = 2). -/
def heapS2 : ShenandoahHeap :=
  { regions := [{ emptyCommitted := true, emptyTime := 10 },
      { emptyCommitted := true, emptyTime := 2 }],
    committed := 20, soft_max_capacity := 20, min_capacity := 0 }

/-- Controller state with both edge flags clear and `last_shrink_time = 0`. -/
def stPeriodic : ShenandoahUncommitThreadState :=
  { soft_max_changed := { value := false },
    explicit_gc_requested := { value := false },
    last_shrink_time := 0 }

/-- Claim C4: in a purely periodic iteration (both edge flags observed clear
by `try_unset`), no region whose `empty_time` is at least
`current - delay / 1000` is uncommitted — such a region's state is untouched
by the whole iteration. -/
theorem periodic_pass_respects_age (rsb : Nat) (delay current : ℚ)
    (st : ShenandoahUncommitThreadState) (h : ShenandoahHeap) (j : Nat)
    (hsm : st.soft_max_changed.value = false)
    (heg : st.explicit_gc_requested.value = false)
    (hage : current - delay / 1000 ≤ (h.get_region j).empty_time) :
    (run_iteration rsb delay current st h).1.get_region j = h.get_region j := by
  have hj : ¬((h.get_region j).empty_time < current - delay / 1000) :=
    not_lt.mpr hage
  rw [run_iteration]
  simp only [try_unset_eq, hsm, heg, Bool.false_or, Bool.or_false,
    Bool.false_eq_true, if_false]
  split_ifs with h1 h2
  · exact uncommit_loop_preserves_region rsb (current - delay / 1000)
      h.min_capacity (fun _ r => r) j h.num_regions h [] hj
  · rfl
  · rfl

theorem periodic_pass_respects_age_witness :
    stPeriodic.soft_max_changed.value = false ∧
    stPeriodic.explicit_gc_requested.value = false ∧
    (10 : ℚ) - 0 / 1000 ≤ (heapS2.get_region 0).empty_time ∧
    (run_iteration 1 0 10 stPeriodic heapS2).1.get_region 0
      = heapS2.get_region 0 :=
  ⟨rfl, rfl,
    by simp [heapS2, ShenandoahHeap.get_region, ShenandoahHeapRegion.empty_time],
    periodic_pass_respects_age 1 0 10 stPeriodic heapS2 0 rfl rfl
      (by simp [heapS2, ShenandoahHeap.get_region, ShenandoahHeapRegion.empty_time])⟩

/-- Heap for the re-check witness: one empty committed region, committed 2,
min capacity 0. -/
def heapC10 : ShenandoahHeap :=
  { regions := [{ emptyCommitted := true, emptyTime := 0 }],
    committed := 2, soft_max_capacity := 2, min_capacity := 0 }

/-- Interference for the re-check witness: the region is refilled and
re-emptied while the lock is being acquired, so it stays empty-committed but
with a fresh `empty_time = 5`, after `shrink_before`. -/
def interfC10 : Nat → ShenandoahHeapRegion → ShenandoahHeapRegion :=
  fun _ _ => { emptyCommitted := true, emptyTime := 5 }

/-- Claim C10: the locked re-check tests only `is_empty_committed`, never
`empty_time`: a region that passed the unlocked check is still uncommitted
even when mutator interference between the unlocked check and the lock
acquisition leaves it empty-committed with a new `empty_time ≥ shrink_before`
(provided the budget guard does not trip). -/
theorem locked_recheck_ignores_empty_time (rsb : Nat) (sb : ℚ) (su : Nat)
    (interf : Nat → ShenandoahHeapRegion → ShenandoahHeapRegion)
    (h : ShenandoahHeap) (tr : List Nat) (i : Nat)
    (he : (h.get_region i).is_empty_committed = true)
    (ht : (h.get_region i).empty_time < sb)
    (hre : (interf i (h.get_region i)).is_empty_committed = true)
    (hrt : ¬((interf i (h.get_region i)).empty_time < sb))
    (hg : ¬(h.committed < su + rsb)) :
    i ∈ (uncommit_loop rsb sb su interf h tr (i + 1)).2 := by
  have hi : i < h.num_regions := index_lt_of_empty_committed h i he
  rw [uncommit_loop_succ, if_pos ⟨he, ht⟩, get_region_set_region_self h _ hi,
    if_pos hre, if_neg (fun hc => hg (by rwa [committed_set_region] at hc))]
  exact uncommit_loop_trace_mem rsb sb su interf i i _ _
    (List.mem_append_right tr (List.mem_singleton.mpr rfl))

theorem locked_recheck_ignores_empty_time_witness :
    (heapC10.get_region 0).is_empty_committed = true ∧
    (heapC10.get_region 0).empty_time < 1 ∧
    (interfC10 0 (heapC10.get_region 0)).is_empty_committed = true ∧
    ¬((interfC10 0 (heapC10.get_region 0)).empty_time < 1) ∧
    ¬(heapC10.committed < 0 + 1) ∧
    0 ∈ (uncommit_loop 1 1 0 interfC10 heapC10 [] (0 + 1)).2 :=
  ⟨by decide, by decide, by decide, by decide, by decide,
    locked_recheck_ignores_empty_time 1 1 0 interfC10 heapC10 [] 0 (by decide)
      (by decide) (by decide) (by decide) (by decide)⟩

/-- Heap for the parameter witness (spec scenario S3 flavour): committed 100,
`soft_max_capacity` lowered to 40, three freshly emptied committed regions. -/
def heapS3 : ShenandoahHeap :=
  { regions := [{ emptyCommitted := true, emptyTime := 0 },
      { emptyCommitted := true, emptyTime := 0 },
      { emptyCommitted := true, emptyTime := 0 }],
    committed := 100, soft_max_capacity := 40, min_capacity := 0 }

/-- Controller state where a soft-max notification is pending. -/
def stSoftMax : ShenandoahUncommitThreadState :=
  { soft_max_changed := { value := true },
    explicit_gc_requested := { value := false },
    last_shrink_time := 0 }

/-- Claim C2: in every acting iteration the pass runs with exactly the spec's
parameters — `shrink_before` is `current` when `try_unset` observed either
edge flag and `current - delay / 1000` otherwise, and `shrink_until` is
`soft_max_capacity` whenever soft-max was observed (even together with
explicit-gc) and `min_capacity` otherwise: the iteration's resulting heap and
uncommit trace are those of `uncommit` invoked with `spec_shrink_before` and
`spec_shrink_until`. -/
theorem run_iteration_uses_spec_params (rsb : Nat) (delay current : ℚ)
    (st : ShenandoahUncommitThreadState) (h : ShenandoahHeap)
    (hact : (st.soft_max_changed.value || st.explicit_gc_requested.value
      || decide (current - st.last_shrink_time > shrink_period delay)) = true)
    (hw : has_work h
        (spec_shrink_before delay current st.soft_max_changed.value
          st.explicit_gc_requested.value)
        (spec_shrink_until h st.soft_max_changed.value
          st.explicit_gc_requested.value) = true) :
    (run_iteration rsb delay current st h).1
        = (uncommit rsb
            (spec_shrink_before delay current st.soft_max_changed.value
              st.explicit_gc_requested.value)
            (spec_shrink_until h st.soft_max_changed.value
              st.explicit_gc_requested.value) h).1 ∧
      (run_iteration rsb delay current st h).2.2
        = (uncommit rsb
            (spec_shrink_before delay current st.soft_max_changed.value
              st.explicit_gc_requested.value)
            (spec_shrink_until h st.soft_max_changed.value
              st.explicit_gc_requested.value) h).2 := by
  simp only [spec_shrink_before, spec_shrink_until] at hw ⊢
  rw [run_iteration]
  simp only [try_unset_eq]
  rw [if_pos hact, if_pos hw]
  exact ⟨rfl, rfl⟩

theorem run_iteration_uses_spec_params_witness :
    ((stSoftMax.soft_max_changed.value || stSoftMax.explicit_gc_requested.value
      || decide ((5 : ℚ) - stSoftMax.last_shrink_time > shrink_period 1000))
        = true) ∧
    has_work heapS3
        (spec_shrink_before 1000 5 stSoftMax.soft_max_changed.value
          stSoftMax.explicit_gc_requested.value)
        (spec_shrink_until heapS3 stSoftMax.soft_max_changed.value
          stSoftMax.explicit_gc_requested.value) = true ∧
    ((run_iteration 20 1000 5 stSoftMax heapS3).1
        = (uncommit 20
            (spec_shrink_before 1000 5 stSoftMax.soft_max_changed.value
              stSoftMax.explicit_gc_requested.value)
            (spec_shrink_until heapS3 stSoftMax.soft_max_changed.value
              stSoftMax.explicit_gc_requested.value) heapS3).1 ∧
      (run_iteration 20 1000 5 stSoftMax heapS3).2.2
        = (uncommit 20
            (spec_shrink_before 1000 5 stSoftMax.soft_max_changed.value
              stSoftMax.explicit_gc_requested.value)
            (spec_shrink_until heapS3 stSoftMax.soft_max_changed.value
              stSoftMax.explicit_gc_requested.value) heapS3).2) :=
  ⟨by decide, by decide,
    run_iteration_uses_spec_params 20 1000 5 stSoftMax heapS3 (by decide)
      (by decide)⟩
